import Mathlib

/-!
# Pausable controller: shallow embedding

Embedding of `createPausable` (src/src/index.test.ts, implementation part)
and its types (`src/unnamed/part_001`): a lifecycle controller around a
push-based stream with operations `start`, `stop`, `pause`, `resume` and a
`command` dispatcher.

Modelling choices:
* `State` and `Command` are the source's string unions as inductives.
* The sink (`SubArgs<T>`: a single callable, a partial observer object, or
  absent) is embedded by its observable shape: which channels it carries.
  An invocation of a sink channel is observed as an emitted `SinkCall`;
  each relay handler returns the list of sink invocations it performs.
* A subscription handle (`Subscription`) is embedded as a fresh `Nat` id
  drawn from a counter `nextSubId`; the ghost histories `subscribed` and
  `canceled` record, in order, the ids of every `source$.subscribe` call
  and of every `sourceSubscription.unsubscribe()` call, making the side
  effects of the operations part of the state.
* `start`/`resume` take a list `sync` of values the stream delivers
  synchronously during `source$.subscribe(...)`; in the source this delivery
  happens after `state = 'running'` was assigned and before the returned
  handle is stored, which the embedding reproduces.
* `step`/`run` give the trace semantics: the environment interleaves
  operations and stream events; a stream event reaches the relay handlers
  exactly when a live subscription exists.
-/

namespace Pausable

/-- Source type `State = 'stopped' | 'running' | 'paused'` (src/unnamed/part_001). -/
inductive State : Type
  | stopped
  | running
  | paused
deriving DecidableEq

/-- Source type `Command = 'start' | 'stop' | 'pause' | 'resume'` (src/unnamed/part_001). -/
inductive Command : Type
  | start
  | stop
  | pause
  | resume
deriving DecidableEq

/-- Source type `SubArgs<T> = Partial<Observer<T>> | ((value: T) => void)`:
the observer argument of `createPausable`, embedded by shape. `fn` is a
single callable (`typeof observer === 'function'`); `obj` is a partial
observer object whose three Booleans record which of `next`/`error`/
`complete` handlers are present (truthy); `absent` is no observer at all
(`undefined`). -/
inductive SubArgs : Type
  | fn
  | obj (hasNext hasErr hasComp : Bool)
  | absent
deriving DecidableEq

/-- One observed invocation of a sink channel: the relay called the
observer's value channel with `v`, its error channel with `e`, or its
completion channel. -/
inductive SinkCall (α ε : Type) : Type
  | value (v : α)
  | errorCall (e : ε)
  | completeCall
deriving DecidableEq

/-- The mutable closure state of one `createPausable` instance:
`let state: State = 'stopped'` and
`let sourceSubscription: Subscription | null = null`, plus the fresh-id
supply and the ghost histories of subscribe/unsubscribe side effects. -/
structure Config : Type where
  state : State
  sourceSubscription : Option Nat
  nextSubId : Nat
  subscribed : List Nat
  canceled : List Nat
deriving DecidableEq

/-- The controller as constructed: `stopped`, no subscription, no history. -/
def init : Config :=
  { state := State.stopped
    sourceSubscription := none
    nextSubId := 0
    subscribed := []
    canceled := [] }

variable {α ε : Type}

/-- Does the sink carry a value channel? (`fn` is itself the value channel;
an object carries one iff `observer?.next` is truthy; absent carries none.) -/
def hasValueChannel : SubArgs → Bool
  | SubArgs.fn => true
  | SubArgs.obj hasNext _ _ => hasNext
  | SubArgs.absent => false

/-- Does the sink carry an error channel?
(`typeof observer === 'object' && observer?.error`). -/
def hasErrorChannel : SubArgs → Bool
  | SubArgs.fn => false
  | SubArgs.obj _ hasErr _ => hasErr
  | SubArgs.absent => false

/-- Does the sink carry a completion channel?
(`typeof observer === 'object' && observer?.complete`). -/
def hasCompleteChannel : SubArgs → Bool
  | SubArgs.fn => false
  | SubArgs.obj _ _ hasComp => hasComp
  | SubArgs.absent => false

/-- The relay's `next` handler:
`if (state === 'running') { if (typeof observer === 'function')
observer(value); else if (observer?.next) observer.next(value); }` —
returns the sink invocations it performs. `st` is the controller's state at
the moment of delivery. -/
def nextHandler (obs : SubArgs) (st : State) (v : α) : List (SinkCall α ε) :=
  if st = State.running then
    match obs with
    | SubArgs.fn => [SinkCall.value v]
    | SubArgs.obj hasNext _ _ => if hasNext then [SinkCall.value v] else []
    | SubArgs.absent => []
  else []

/-- The relay's `error` handler:
`if (typeof observer === 'object' && observer?.error) observer.error(err);`
— no state gate; a callable or absent observer is not an object, so the
error is dropped. -/
def errorHandler (obs : SubArgs) (e : ε) : List (SinkCall α ε) :=
  match obs with
  | SubArgs.obj _ hasErr _ => if hasErr then [SinkCall.errorCall e] else []
  | _ => []

/-- The relay's `complete` handler:
`if (typeof observer === 'object' && observer?.complete)
observer.complete();` — no state gate. -/
def completeHandler (obs : SubArgs) : List (SinkCall α ε) :=
  match obs with
  | SubArgs.obj _ _ hasComp => if hasComp then [SinkCall.completeCall] else []
  | _ => []

/-- Source `subscribe()`: `sourceSubscription = source$.subscribe({ next, error,
complete })`. A fresh handle id is drawn; the stream may synchronously
deliver the values `sync` through the installed `next` handler while
`source$.subscribe` runs, i.e. at the state `c.state` current at the call
(the handle is stored only after the call returns, but the handlers never
read it). Returns the updated closure state and the sink invocations. -/
def subscribe (obs : SubArgs) (sync : List α) (c : Config) :
    Config × List (SinkCall α ε) :=
  ({ c with
      sourceSubscription := some c.nextSubId
      nextSubId := c.nextSubId + 1
      subscribed := c.subscribed ++ [c.nextSubId] },
   (sync.map (fun v => nextHandler obs c.state v)).flatten)

/-- Source `unsubscribe()`: `if (sourceSubscription) {
sourceSubscription.unsubscribe(); sourceSubscription = null; }`. -/
def unsubscribe (c : Config) : Config :=
  match c.sourceSubscription with
  | some i => { c with canceled := c.canceled ++ [i], sourceSubscription := none }
  | none => c

/-- Source `start()`: `if (state !== 'stopped') return; state = 'running';
subscribe();`. -/
def start (obs : SubArgs) (sync : List α) (c : Config) :
    Config × List (SinkCall α ε) :=
  if c.state ≠ State.stopped then (c, [])
  else subscribe obs sync { c with state := State.running }

/-- Source `stop()`: `if (state === 'stopped') return; state = 'stopped';
unsubscribe();`. It performs no sink invocation. -/
def stop (c : Config) : Config :=
  if c.state = State.stopped then c
  else unsubscribe { c with state := State.stopped }

/-- Source `pause()`: `if (state !== 'running') return; state = 'paused';
unsubscribe();`. It performs no sink invocation. -/
def pause (c : Config) : Config :=
  if c.state ≠ State.running then c
  else unsubscribe { c with state := State.paused }

/-- Source `resume()`: `if (state !== 'paused') return; state = 'running';
subscribe();`. -/
def resume (obs : SubArgs) (sync : List α) (c : Config) :
    Config × List (SinkCall α ε) :=
  if c.state ≠ State.paused then (c, [])
  else subscribe obs sync { c with state := State.running }

/-- Source `const ACTIONS = { start, stop, pause, resume };
const command = (action: Command) => ACTIONS[action]();`. -/
def command (obs : SubArgs) (a : Command) (sync : List α) (c : Config) :
    Config × List (SinkCall α ε) :=
  match a with
  | Command.start => start obs sync c
  | Command.stop => (stop c, [])
  | Command.pause => (pause c, [])
  | Command.resume => resume obs sync c

/-- One occurrence in the environment's trace: an operation call (with the
values the stream would deliver synchronously during a `subscribe` it
triggers), or a stream event pushed through the source. -/
inductive Event (α ε : Type) : Type
  | cmd (a : Command) (sync : List α)
  | next (v : α)
  | fail (e : ε)
  | complete
deriving DecidableEq

/-- One step of the trace semantics. A stream event reaches the relay
handlers exactly when a live subscription exists (`sourceSubscription` is
non-null); the handlers read the controller's state at that moment. Stream
events never change the closure state. -/
def step (obs : SubArgs) (c : Config) : Event α ε → Config × List (SinkCall α ε)
  | Event.cmd a sync => command obs a sync c
  | Event.next v =>
      (c, if c.sourceSubscription.isSome then nextHandler obs c.state v else [])
  | Event.fail e =>
      (c, if c.sourceSubscription.isSome then errorHandler obs e else [])
  | Event.complete =>
      (c, if c.sourceSubscription.isSome then completeHandler obs else [])

/-- Run a trace of events from a closure state, collecting the sink
invocations in order. -/
def run (obs : SubArgs) (c : Config) : List (Event α ε) → Config × List (SinkCall α ε)
  | [] => (c, [])
  | e :: es =>
      let p := step obs c e
      let q := run obs p.1 es
      (q.1, p.2 ++ q.2)

/-- Does the command `a`, issued at closure state `c`, create a fresh
subscription? (`start` from `stopped`, or `resume` from `paused`; both set
`state = 'running'` before calling `subscribe()`.) -/
def subCreated (a : Command) (c : Config) : Bool :=
  match a with
  | Command.start => decide (c.state = State.stopped)
  | Command.resume => decide (c.state = State.paused)
  | _ => false

/-- The values a trace delivers through a live subscription at moments
where the controller's state is `running`: synchronous deliveries during a
successful `start`/`resume` (the state is already `running` then), and
`next` events arriving while subscribed and running. -/
def deliveredWhileRunning (obs : SubArgs) :
    Config → List (Event α ε) → List α
  | _, [] => []
  | c, Event.cmd a sync :: es =>
      (if subCreated a c then sync else []) ++
        deliveredWhileRunning obs (command (α := α) (ε := ε) obs a sync c).1 es
  | c, Event.next v :: es =>
      (if c.sourceSubscription.isSome && decide (c.state = State.running)
        then [v] else []) ++ deliveredWhileRunning obs c es
  | c, Event.fail _ :: es => deliveredWhileRunning obs c es
  | c, Event.complete :: es => deliveredWhileRunning obs c es

/-- The values carried by the value-channel invocations of an output log,
in order. -/
def valueOuts (l : List (SinkCall α ε)) : List α :=
  l.filterMap (fun s =>
    match s with
    | SinkCall.value v => some v
    | _ => none)

/-!
## The spec's once-normalized sink (for the refinement claim)

The spec resolves the union-shaped sink parameter "once at construction
into a uniform three-channel handler record (each channel independently
optional)". These definitions follow the spec's words; the refinement
theorem compares the source's per-event handlers against them.
-/

/-- The spec's uniform three-channel handler record: each channel is
independently optional (`true` = present). -/
structure NormalizedSink : Type where
  onValue : Bool
  onErrorCh : Bool
  onCompleteCh : Bool
deriving DecidableEq

/-- The spec's construction-time resolution of the sink parameter: "a
single callable invoked as the value channel; or an object with zero or
more of onValue/onError/onComplete. If no sink is supplied, all channels
are no-ops." -/
def normalizeSink : SubArgs → NormalizedSink
  | SubArgs.fn => { onValue := true, onErrorCh := false, onCompleteCh := false }
  | SubArgs.obj hasNext hasErr hasComp =>
      { onValue := hasNext, onErrorCh := hasErr, onCompleteCh := hasComp }
  | SubArgs.absent => { onValue := false, onErrorCh := false, onCompleteCh := false }

/-- The spec's value relay over the normalized record: forward only while
`running`, to the value channel when present. -/
def normValueRelay (ns : NormalizedSink) (st : State) (v : α) : List (SinkCall α ε) :=
  if decide (st = State.running) && ns.onValue then [SinkCall.value v] else []

/-- The spec's error relay over the normalized record: forward
unconditionally when the error channel is present. -/
def normErrorRelay (ns : NormalizedSink) (e : ε) : List (SinkCall α ε) :=
  if ns.onErrorCh then [SinkCall.errorCall e] else []

/-- The spec's completion relay over the normalized record: forward
unconditionally when the completion channel is present. -/
def normCompleteRelay (ns : NormalizedSink) : List (SinkCall α ε) :=
  if ns.onCompleteCh then [SinkCall.completeCall] else []

/-!
## Helper lemmas
-/

theorem nextHandler_eq (obs : SubArgs) (st : State) (v : α) :
    nextHandler (ε := ε) obs st v =
      (if decide (st = State.running) && hasValueChannel obs
        then [SinkCall.value v] else []) := by
  by_cases h : st = State.running <;>
    cases obs <;> simp [nextHandler, hasValueChannel, h]

theorem errorHandler_eq (obs : SubArgs) (e : ε) :
    errorHandler (α := α) obs e =
      (if hasErrorChannel obs then [SinkCall.errorCall e] else []) := by
  cases obs <;> simp [errorHandler, hasErrorChannel]

theorem completeHandler_eq (obs : SubArgs) :
    completeHandler (α := α) (ε := ε) obs =
      (if hasCompleteChannel obs then [SinkCall.completeCall] else []) := by
  cases obs <;> simp [completeHandler, hasCompleteChannel]

theorem valueOuts_nil : valueOuts ([] : List (SinkCall α ε)) = [] := rfl

theorem valueOuts_append (l₁ l₂ : List (SinkCall α ε)) :
    valueOuts (l₁ ++ l₂) = valueOuts l₁ ++ valueOuts l₂ :=
  List.filterMap_append _ _ _

theorem valueOuts_nextHandler (obs : SubArgs) (st : State) (v : α) :
    valueOuts (nextHandler (ε := ε) obs st v) =
      (if decide (st = State.running) && hasValueChannel obs then [v] else []) := by
  rw [nextHandler_eq]
  split <;> simp [valueOuts]

theorem valueOuts_errorHandler (obs : SubArgs) (e : ε) :
    valueOuts (errorHandler (α := α) obs e) = [] := by
  rw [errorHandler_eq]
  split <;> simp [valueOuts]

theorem valueOuts_completeHandler (obs : SubArgs) :
    valueOuts (completeHandler (α := α) (ε := ε) obs) = [] := by
  rw [completeHandler_eq]
  split <;> simp [valueOuts]

theorem valueOuts_sync (obs : SubArgs) (st : State) (l : List α) :
    valueOuts ((l.map (fun v => nextHandler (ε := ε) obs st v)).flatten) =
      (if decide (st = State.running) && hasValueChannel obs then l else []) := by
  induction l with
  | nil => split <;> simp [valueOuts_nil]
  | cons v l ih =>
      simp only [List.map_cons, List.flatten_cons, valueOuts_append,
        valueOuts_nextHandler, ih]
      split <;> simp

theorem subscribe_valueOuts (obs : SubArgs) (sync : List α) (c : Config) :
    valueOuts (subscribe (ε := ε) obs sync c).2 =
      (if decide (c.state = State.running) && hasValueChannel obs then sync else []) := by
  simp only [subscribe]
  exact valueOuts_sync obs c.state sync

theorem command_valueOuts (obs : SubArgs) (a : Command) (sync : List α) (c : Config) :
    valueOuts (command (ε := ε) obs a sync c).2 =
      (if hasValueChannel obs && subCreated a c then sync else []) := by
  cases a with
  | start =>
      by_cases h : c.state = State.stopped
      · simp only [command, start, h, ne_eq, not_true_eq_false, Bool.false_eq_true,
          if_false]
        rw [subscribe_valueOuts]
        simp [subCreated, h, Bool.and_comm]
      · simp [command, start, subCreated, h, valueOuts_nil]
  | stop => simp [command, subCreated, valueOuts_nil]
  | pause => simp [command, subCreated, valueOuts_nil]
  | resume =>
      by_cases h : c.state = State.paused
      · simp only [command, resume, h, ne_eq, not_true_eq_false, Bool.false_eq_true,
          if_false]
        rw [subscribe_valueOuts]
        simp [subCreated, h, Bool.and_comm]
      · simp [command, resume, subCreated, h, valueOuts_nil]

theorem run_valueOuts (obs : SubArgs) :
    ∀ (es : List (Event α ε)) (c : Config),
      valueOuts (run obs c es).2 =
        (if hasValueChannel obs then deliveredWhileRunning obs c es else []) := by
  intro es
  induction es with
  | nil => intro c; split <;> simp [run, valueOuts_nil, deliveredWhileRunning]
  | cons e es ih =>
      intro c
      cases e with
      | cmd a sync =>
          simp only [run, valueOuts_append, command_valueOuts, ih,
            deliveredWhileRunning, step]
          cases hv : hasValueChannel obs <;> cases hc : subCreated a c <;> simp
      | next v =>
          simp only [run, step, valueOuts_append, ih, deliveredWhileRunning]
          cases hs : c.sourceSubscription.isSome <;>
            cases hv : hasValueChannel obs <;>
              by_cases hr : c.state = State.running <;>
                simp [valueOuts_nil, valueOuts_nextHandler, hs, hv, hr]
      | fail e =>
          simp only [run, step, valueOuts_append, ih, deliveredWhileRunning]
          cases hs : c.sourceSubscription.isSome <;>
            simp [valueOuts_nil, valueOuts_errorHandler]
      | complete =>
          simp only [run, step, valueOuts_append, ih, deliveredWhileRunning]
          cases hs : c.sourceSubscription.isSome <;>
            simp [valueOuts_nil, valueOuts_completeHandler]

theorem step_sub_iff_running (obs : SubArgs) (c : Config) (e : Event α ε)
    (h : c.sourceSubscription.isSome = decide (c.state = State.running)) :
    (step obs c e).1.sourceSubscription.isSome =
      decide ((step obs c e).1.state = State.running) := by
  cases e with
  | cmd a sync =>
      cases a with
      | start =>
          by_cases hs : c.state = State.stopped <;>
            simp [step, command, start, subscribe, hs, h]
      | stop =>
          by_cases hs : c.state = State.stopped
          · simpa [step, command, stop, hs] using h
          · cases hsub : c.sourceSubscription <;>
              simp [step, command, stop, unsubscribe, hs, hsub]
      | pause =>
          by_cases hs : c.state = State.running
          · cases hsub : c.sourceSubscription <;>
              simp [step, command, pause, unsubscribe, hs, hsub]
          · simpa [step, command, pause, hs] using h
      | resume =>
          by_cases hs : c.state = State.paused <;>
            simp [step, command, resume, subscribe, hs, h]
  | next v => simpa [step] using h
  | fail e => simpa [step] using h
  | complete => simpa [step] using h

theorem run_sub_iff_running (obs : SubArgs) :
    ∀ (es : List (Event α ε)) (c : Config),
      c.sourceSubscription.isSome = decide (c.state = State.running) →
        (run obs c es).1.sourceSubscription.isSome =
          decide ((run obs c es).1.state = State.running) := by
  intro es
  induction es with
  | nil => intro c h; simpa [run] using h
  | cons e es ih =>
      intro c h
      simpa [run] using ih (step obs c e).1 (step_sub_iff_running obs c e h)

/-- The inductive invariant behind at-most-once cancellation: cancelled ids
are pairwise distinct, below the fresh-id counter and among the created
ids; the live handle (if any) is below the counter, not yet cancelled, and
among the created ids. -/
def CancelInv (c : Config) : Prop :=
  c.canceled.Nodup
  ∧ (∀ i ∈ c.canceled, i < c.nextSubId)
  ∧ (∀ i ∈ c.canceled, i ∈ c.subscribed)
  ∧ (∀ i ∈ c.sourceSubscription.toList,
      i < c.nextSubId ∧ i ∉ c.canceled ∧ i ∈ c.subscribed)

theorem subscribe_cancelInv (obs : SubArgs) (sync : List α) (c : Config)
    (h : CancelInv c) : CancelInv (subscribe (ε := ε) obs sync c).1 := by
  obtain ⟨h1, h2, h3, _⟩ := h
  refine ⟨h1, ?_, ?_, ?_⟩
  · intro i hi
    exact Nat.lt_succ_of_lt (h2 i hi)
  · intro i hi
    exact List.mem_append_left _ (h3 i hi)
  · intro i hi
    simp only [subscribe, Option.toList_some, List.mem_singleton] at hi
    subst hi
    refine ⟨Nat.lt_succ_self _, fun hc => ?_, List.mem_append_right _ (by simp)⟩
    exact absurd (h2 _ hc) (lt_irrefl _)

theorem unsubscribe_cancelInv (c : Config) (h : CancelInv c) :
    CancelInv (unsubscribe c) := by
  obtain ⟨h1, h2, h3, h4⟩ := h
  cases hsub : c.sourceSubscription with
  | none => simpa [unsubscribe, hsub] using ⟨h1, h2, h3, h4⟩
  | some i =>
      obtain ⟨hlt, hnc, hmem⟩ := h4 i (by simp [hsub])
      simp only [unsubscribe, hsub]
      refine ⟨?_, ?_, ?_, ?_⟩
      · simpa [List.nodup_append] using ⟨h1, hnc⟩
      · intro j hj
        rcases List.mem_append.mp hj with hj | hj
        · exact h2 j hj
        · rw [List.mem_singleton.mp hj]; exact hlt
      · intro j hj
        rcases List.mem_append.mp hj with hj | hj
        · exact h3 j hj
        · rw [List.mem_singleton.mp hj]; exact hmem
      · intro j hj
        simp at hj

theorem step_cancelInv (obs : SubArgs) (c : Config) (e : Event α ε)
    (h : CancelInv c) : CancelInv (step obs c e).1 := by
  cases e with
  | cmd a sync =>
      cases a with
      | start =>
          by_cases hs : c.state = State.stopped
          · simp only [step, command, start, hs]
            exact subscribe_cancelInv obs sync _ h
          · simpa [step, command, start, hs] using h
      | stop =>
          by_cases hs : c.state = State.stopped
          · simpa [step, command, stop, hs] using h
          · simp only [step, command, stop, hs]
            exact unsubscribe_cancelInv _ h
      | pause =>
          by_cases hs : c.state = State.running
          · simp only [step, command, pause, hs]
            exact unsubscribe_cancelInv _ h
          · simpa [step, command, pause, hs] using h
      | resume =>
          by_cases hs : c.state = State.paused
          · simp only [step, command, resume, hs]
            exact subscribe_cancelInv obs sync _ h
          · simpa [step, command, resume, hs] using h
  | next v => simpa [step] using h
  | fail e => simpa [step] using h
  | complete => simpa [step] using h

theorem run_cancelInv (obs : SubArgs) :
    ∀ (es : List (Event α ε)) (c : Config), CancelInv c →
      CancelInv (run obs c es).1 := by
  intro es
  induction es with
  | nil => intro c h; simpa [run] using h
  | cons e es ih =>
      intro c h
      simpa [run] using ih (step obs c e).1 (step_cancelInv obs c e h)

theorem init_cancelInv : CancelInv init := by
  refine ⟨List.nodup_nil, ?_, ?_, ?_⟩ <;> intro i hi <;> simp [init] at hi

/-!
## Claim theorems
-/

/-- C1: the four operations follow the transition table exactly, at every
closure state. `start` moves `stopped` to `running` and creates a fresh
subscription (handle stored, id recorded as subscribed, nothing cancelled,
synchronous values relayed at state `running`); `pause` moves `running` to
`paused` and cancels the current subscription; `resume` moves `paused` to
`running` and creates a fresh subscription; `stop` moves any non-stopped
state to `stopped` and cancels the current subscription if one exists. In
every other state each operation returns the closure state unchanged with
no sink invocation and no subscribe/unsubscribe side effect — the same
observable effect as not calling it; all four are total functions, so a
failed guard never raises an error. -/
theorem transition_table_exact (obs : SubArgs) (sync : List α) (c : Config) :
    (start (ε := ε) obs sync c =
      if c.state = State.stopped then
        ({ state := State.running
           sourceSubscription := some c.nextSubId
           nextSubId := c.nextSubId + 1
           subscribed := c.subscribed ++ [c.nextSubId]
           canceled := c.canceled },
         (sync.map (fun v => nextHandler obs State.running v)).flatten)
      else (c, []))
    ∧ (pause c =
      if c.state = State.running then
        { c with
            state := State.paused
            sourceSubscription := none
            canceled := c.canceled ++ c.sourceSubscription.toList }
      else c)
    ∧ (resume (ε := ε) obs sync c =
      if c.state = State.paused then
        ({ state := State.running
           sourceSubscription := some c.nextSubId
           nextSubId := c.nextSubId + 1
           subscribed := c.subscribed ++ [c.nextSubId]
           canceled := c.canceled },
         (sync.map (fun v => nextHandler obs State.running v)).flatten)
      else (c, []))
    ∧ (stop c =
      if c.state = State.stopped then c
      else
        { c with
            state := State.stopped
            sourceSubscription := none
            canceled := c.canceled ++ c.sourceSubscription.toList }) := by
  refine ⟨?_, ?_, ?_, ?_⟩
  · by_cases h : c.state = State.stopped <;> simp [start, subscribe, h]
  · by_cases h : c.state = State.running <;>
      cases hsub : c.sourceSubscription <;> simp [pause, unsubscribe, h, hsub]
  · by_cases h : c.state = State.paused <;> simp [resume, subscribe, h]
  · by_cases h : c.state = State.stopped <;>
      cases hsub : c.sourceSubscription <;> simp [stop, unsubscribe, h, hsub]

/-- C2: a value delivered while the controller's state at the moment of
delivery is not `running` is never forwarded to the sink's value channel —
the relay's `next` handler performs no sink invocation then (for every sink
shape), and a `next` stream event in the trace semantics produces no
output. -/
theorem value_gating_not_running (obs : SubArgs) (st : State) (c : Config) (v : α) :
    (st ≠ State.running → nextHandler (ε := ε) obs st v = [])
    ∧ (c.state ≠ State.running → (step (ε := ε) obs c (Event.next v)).2 = []) := by
  constructor
  · intro h
    simp [nextHandler, h]
  · intro h
    cases hs : c.sourceSubscription.isSome <;> simp [step, nextHandler, h, hs]

/-- C3: over any trace from the initial state, the value-channel
invocations are exactly the values delivered through a live subscription
while the state is `running` — including values delivered synchronously
during subscription establishment inside `start`/`resume`, which both set
the state to `running` before subscribing — each forwarded exactly once,
verbatim, in delivery order, with no reordering or buffering (and none at
all when the sink has no value channel). -/
theorem values_forwarded_exactly_in_order (obs : SubArgs) (es : List (Event α ε)) :
    valueOuts (run obs init es).2 =
      (if hasValueChannel obs then deliveredWhileRunning obs init es else []) :=
  run_valueOuts obs es init

/-- C4: after every trace of operations and stream events from the initial
`stopped` state, the subscription handle is non-null exactly when the state
is `running`; in particular `paused` holds no live subscription. -/
theorem subscription_handle_iff_running (obs : SubArgs) (es : List (Event α ε)) :
    (run obs init es).1.sourceSubscription.isSome =
      decide ((run obs init es).1.state = State.running) :=
  run_sub_iff_running obs es init rfl

/-- C5: a stream error is forwarded verbatim to the sink's error channel
exactly once when the sink supplies one, silently dropped otherwise; the
error handler does not consult the controller's state (its equation does
not mention it), and an error event changes no controller field. -/
theorem error_forwarded_without_state_gate (obs : SubArgs) (e : ε) (c : Config) :
    errorHandler (α := α) obs e =
      (if hasErrorChannel obs then [SinkCall.errorCall e] else [])
    ∧ (step (α := α) obs c (Event.fail e)).1 = c
    ∧ (step (α := α) obs c (Event.fail e)).2 =
        (if c.sourceSubscription.isSome then errorHandler obs e else []) :=
  ⟨errorHandler_eq obs e, rfl, rfl⟩

/-- C6: stream completion forwards to the sink's completion channel when
present and leaves every controller field unchanged — the state (stale
`running` included) and the subscription handle are untouched; no
transition is triggered by the stream itself. -/
theorem completion_preserves_controller_fields (obs : SubArgs) (c : Config) :
    (step (α := α) (ε := ε) obs c Event.complete).1 = c
    ∧ completeHandler (α := α) (ε := ε) obs =
        (if hasCompleteChannel obs then [SinkCall.completeCall] else [])
    ∧ (step (α := α) (ε := ε) obs c Event.complete).2 =
        (if c.sourceSubscription.isSome && hasCompleteChannel obs
          then [SinkCall.completeCall] else []) := by
  refine ⟨rfl, completeHandler_eq obs, ?_⟩
  cases hs : c.sourceSubscription.isSome <;> simp [step, hs, completeHandler_eq]

/-- C7: `command` is a pure dispatch — for each of the four action names
and every closure state it returns exactly what the corresponding operation
returns, with no additional state change or sink invocation. -/
theorem command_is_pure_dispatch (obs : SubArgs) (sync : List α) (c : Config) :
    command (ε := ε) obs Command.start sync c = start obs sync c
    ∧ command (ε := ε) obs Command.stop sync c = (stop c, [])
    ∧ command (ε := ε) obs Command.pause sync c = (pause c, [])
    ∧ command (ε := ε) obs Command.resume sync c = resume obs sync c :=
  ⟨rfl, rfl, rfl, rfl⟩

/-- C8: the source's per-event relay handlers factor through the sink
resolved once into the spec's uniform three-channel record: for every sink
shape, state, value and error, each handler returns exactly what the
corresponding relay over `normalizeSink obs` returns, so relaying is fully
determined by the construction-time record and needs no further shape
inspection. -/
theorem relay_agrees_with_normalized_sink (obs : SubArgs) (st : State)
    (v : α) (e : ε) :
    nextHandler (ε := ε) obs st v = normValueRelay (normalizeSink obs) st v
    ∧ errorHandler (α := α) obs e = normErrorRelay (normalizeSink obs) e
    ∧ completeHandler (α := α) (ε := ε) obs =
        normCompleteRelay (normalizeSink obs) := by
  refine ⟨?_, ?_, ?_⟩
  · rw [nextHandler_eq, normValueRelay]
    cases obs <;> simp [normalizeSink, hasValueChannel]
  · rw [errorHandler_eq, normErrorRelay]
    cases obs <;> simp [normalizeSink, hasErrorChannel]
  · rw [completeHandler_eq, normCompleteRelay]
    cases obs <;> simp [normalizeSink, hasCompleteChannel]

/-- C9: every subscription handle is cancelled at most once. `unsubscribe`
records a cancellation exactly when the stored handle is non-null, nulls
the handle afterwards, and is the identity on a null handle; and after
every trace of operations and stream events from the initial state the
cancelled ids are pairwise distinct (so repeated `stop`, or `stop` after
`pause`, never cancels the same handle twice) and each is an id actually
created by a `subscribe`. -/
theorem handles_canceled_at_most_once (c : Config) (obs : SubArgs)
    (es : List (Event α ε)) :
    (unsubscribe c).sourceSubscription = none
    ∧ (unsubscribe c).canceled = c.canceled ++ c.sourceSubscription.toList
    ∧ (c.sourceSubscription = none → unsubscribe c = c)
    ∧ ((run obs init es).1.canceled).Nodup
    ∧ (∀ i ∈ (run obs init es).1.canceled, i ∈ (run obs init es).1.subscribed) := by
  have hinv := run_cancelInv obs es init init_cancelInv
  refine ⟨?_, ?_, ?_, hinv.1, hinv.2.2.1⟩
  · cases hsub : c.sourceSubscription <;> simp [unsubscribe, hsub]
  · cases hsub : c.sourceSubscription <;> simp [unsubscribe, hsub]
  · intro h
    simp [unsubscribe, h]

/-- C10: when the supplied sink is a single callable, only the value
channel exists — stream errors and completions are silently dropped (the
relay forwards those channels only for an object sink), while values are
still forwarded to the callable while running. -/
theorem callable_sink_drops_terminal_signals (e : ε) (v : α) (c : Config) :
    errorHandler (α := α) SubArgs.fn e = []
    ∧ completeHandler (α := α) (ε := ε) SubArgs.fn = []
    ∧ nextHandler (ε := ε) SubArgs.fn State.running v = [SinkCall.value v]
    ∧ (step (α := α) SubArgs.fn c (Event.fail e)).2 = []
    ∧ (step (α := α) (ε := ε) SubArgs.fn c Event.complete).2 = [] := by
  refine ⟨rfl, rfl, ?_, ?_, ?_⟩
  · simp [nextHandler]
  · cases hs : c.sourceSubscription.isSome <;>
      simp [step, errorHandler, hs]
  · cases hs : c.sourceSubscription.isSome <;>
      simp [step, completeHandler, hs]

end Pausable
